import Mathlib

/-!
Shallow embedding of goph's client.go: the session lifecycle (Run, Close),
host-key policy construction (New, NewUnknown, Dial) and the tree transfer
engine (Upload, uploadFile, uploadDirectory, UploadV1, downloadFile,
downloadDirectory).

Modelling conventions.
A path is its list of components; filepath.Join is list append and
filepath.Rel srcDir path strips the walk root, so a visited node is carried
as its path relative to the transfer root.  A filesystem (local or remote)
is a finite association map from paths to nodes (regular file with byte
content, or directory).  The external effectful collaborators (os,
path/filepath, pkg/sftp, x/crypto/ssh) are black boxes per the spec; their
primitive calls are modelled by failure oracles: Bool-valued functions
saying whether a given stat/open/create/copy/mkdir/sync call fails, so
theorems quantify over every failure pattern those sides can produce.
filepath.Walk (and sftp's Walk) is modelled by the enumeration it produces:
the root first, parents before children, depth-first, no duplicate paths;
the code under test is the walk callback / loop body, folded over that
enumeration with the source's fail-fast policy.  Each operation also
returns the list of channel/handle events it performed, in order, so that
sub-channel counting, deferred-close ordering and zero-write claims can be
stated; deferred closes appear in Go's LIFO unwind order.
-/

namespace Goph

abbrev Path := List String

/-- A filesystem node: a regular file with its byte content, or a directory. -/
inductive FNode where
  | file (content : List Nat)
  | dir
deriving DecidableEq

/-- A filesystem: association list from absolute paths to nodes
(first entry wins, insertion prepends, so insertion overwrites). -/
structure Fs where
  entries : List (Path × FNode)
deriving DecidableEq

def emptyFs : Fs := { entries := [] }

def findEntry : List (Path × FNode) → Path → Option FNode
  | [], _ => none
  | (q, nd) :: rest, p => if q = p then some nd else findEntry rest p

def Fs.lookup (fs : Fs) (p : Path) : Option FNode := findEntry fs.entries p

/-- os.Create / sftp Create: create-or-truncate the file at `p`. -/
def Fs.insert (fs : Fs) (p : Path) (nd : FNode) : Fs := ⟨(p, nd) :: fs.entries⟩

/-- Create the node at `p` only when nothing is there (MkdirAll never
replaces an existing entry). -/
def Fs.insertIfAbsent (fs : Fs) (p : Path) (nd : FNode) : Fs :=
  match Fs.lookup fs p with
  | some _ => fs
  | none => Fs.insert fs p nd

/-- All leading portions of a path, shortest first, ending with the path
itself: the directories MkdirAll touches. -/
def prefixList : Path → List Path
  | [] => [[]]
  | a :: rest => [] :: (prefixList rest).map (fun q => a :: q)

def Fs.mkdirs (fs : Fs) (ps : List Path) : Fs :=
  ps.foldl (fun f q => Fs.insertIfAbsent f q FNode.dir) fs

/-- os.MkdirAll / sftp MkdirAll on success: every missing leading
directory of `p` (and `p` itself) is created; existing directories are
left alone (re-creating an existing directory is not an error). -/
def Fs.mkdirAll (fs : Fs) (p : Path) : Fs := Fs.mkdirs fs (prefixList p)

/-- `q` is a proper leading portion of `p` (a strict ancestor directory). -/
def strictAncestor (q p : Path) : Prop := q.length < p.length ∧ p.take q.length = q

instance (q p : Path) : Decidable (strictAncestor q p) :=
  decidable_of_iff (q.length < p.length ∧ p.take q.length = q) Iff.rfl

/-- The error taxonomy; path-carrying constructors record the offending
path of the failed primitive (StatError / TransferError in the spec). -/
inductive Err where
  | statError (p : Path)
  | openError (p : Path)
  | createError (p : Path)
  | copyError (p : Path)
  | mkdirError (p : Path)
  | syncError (p : Path)
  | sftpError
  | sessionError
  | errClosed
  | hostKeyPolicyMissing
  | connError
deriving DecidableEq

/-- The path an error identifies, when it carries one. -/
def errPath : Err → Option Path
  | .statError p => some p
  | .openError p => some p
  | .createError p => some p
  | .copyError p => some p
  | .mkdirError p => some p
  | .syncError p => some p
  | _ => none

/-- Channel and handle lifecycle events, in the order the operation
performed them. -/
inductive Event where
  | sftpOpen
  | sftpClose
  | chanOpen
  | exec
  | chanClose
  | localOpen (p : Path)
  | localCreate (p : Path)
  | localMkdirAll (p : Path)
  | remoteOpen (p : Path)
  | remoteCreate (p : Path)
  | copy (p : Path)
  | sync (p : Path)
  | closeFile (p : Path)
deriving DecidableEq

/-- Event `a` occurs strictly before event `b` in a trace. -/
def precedes (a b : Event) (tr : List Event) : Prop :=
  ∃ i j : Nat, i < j ∧ tr[i]? = some a ∧ tr[j]? = some b

def sftpOpens (tr : List Event) : Nat :=
  tr.countP fun e => match e with | .sftpOpen => true | _ => false

def sftpCloses (tr : List Event) : Nat :=
  tr.countP fun e => match e with | .sftpClose => true | _ => false

def chanOpens (tr : List Event) : Nat :=
  tr.countP fun e => match e with | .chanOpen => true | _ => false

def chanCloses (tr : List Event) : Nat :=
  tr.countP fun e => match e with | .chanClose => true | _ => false

/-- Failure oracle for an upload: which primitive calls of the black-box
sides (sftp.NewClient, the walk's lstat, os.Open, sftp Create, io.Copy,
sftp MkdirAll) fail, and at which paths. -/
structure UploadEnv where
  sftpFails : Bool
  lstatFails : Path → Bool
  openFails : Path → Bool
  createFails : Path → Bool
  copyFails : Path → Bool
  mkdirFails : Path → Bool

def UploadEnv.noFaults (e : UploadEnv) : Prop :=
  e.sftpFails = false
  ∧ (∀ p, e.lstatFails p = false)
  ∧ (∀ p, e.openFails p = false)
  ∧ (∀ p, e.createFails p = false)
  ∧ (∀ p, e.copyFails p = false)
  ∧ (∀ p, e.mkdirFails p = false)

/-- Failure oracle for a download: walker.Err, sftp Open, os.MkdirAll,
os.Create, io.Copy, File.Sync. -/
structure DownloadEnv where
  walkErrFails : Path → Bool
  remoteOpenFails : Path → Bool
  localMkdirFails : Path → Bool
  localCreateFails : Path → Bool
  copyFails : Path → Bool
  syncFails : Path → Bool

def DownloadEnv.noFaults (e : DownloadEnv) : Prop :=
  (∀ p, e.walkErrFails p = false)
  ∧ (∀ p, e.remoteOpenFails p = false)
  ∧ (∀ p, e.localMkdirFails p = false)
  ∧ (∀ p, e.localCreateFails p = false)
  ∧ (∀ p, e.copyFails p = false)
  ∧ (∀ p, e.syncFails p = false)

/-- client.go lines 180-201, uploadFile: open one sftp sub-channel, open
the local source (content `c` on success), create the remote file,
stream-copy, with deferred closes (dstFile, srcFile, sftpClient) run in
LIFO order on every path.  A failed io.Copy leaves the created remote file
behind (modelled with empty content) — no rollback. -/
def uploadFile (env : UploadEnv) (c : List Nat) (sp dp : Path) (remote : Fs) :
    Option Err × Fs × List Event :=
  if env.sftpFails then (some .sftpError, remote, [])
  else if env.openFails sp then
    (some (.openError sp), remote, [.sftpOpen, .sftpClose])
  else if env.createFails dp then
    (some (.createError dp), remote, [.sftpOpen, .localOpen sp, .closeFile sp, .sftpClose])
  else if env.copyFails dp then
    (some (.copyError dp), Fs.insert remote dp (FNode.file []),
      [.sftpOpen, .localOpen sp, .remoteCreate dp, .closeFile dp, .closeFile sp, .sftpClose])
  else
    (none, Fs.insert remote dp (FNode.file c),
      [.sftpOpen, .localOpen sp, .remoteCreate dp, .copy dp, .closeFile dp, .closeFile sp,
        .sftpClose])

/-- The error produced by one iteration of uploadDirectory's walk callback
(client.go lines 210-243) at relative path `n.1` with node kind `n.2`:
the callback's incoming walk error aborts; for a directory the MkdirAll
return value is DISCARDED by the source (line 223), so a directory step
never yields an error; for a file, os.Open, sftp Create and io.Copy abort
in that order.  The error depends only on the oracle and the paths. -/
def uploadStepErr (env : UploadEnv) (sD dD : Path) (n : Path × FNode) : Option Err :=
  if env.lstatFails (sD ++ n.1) then some (.statError (sD ++ n.1))
  else
    match n.2 with
    | .dir => none
    | .file _ =>
      if env.openFails (sD ++ n.1) then some (.openError (sD ++ n.1))
      else if env.createFails (dD ++ n.1) then some (.createError (dD ++ n.1))
      else if env.copyFails (dD ++ n.1) then some (.copyError (dD ++ n.1))
      else none

/-- The remote-filesystem effect of that same callback iteration: a
directory is MkdirAll'd at the joined target (no-op if its MkdirAll
fails, since the error is dropped); a file is created and stream-copied,
a failed copy leaving the created file behind. -/
def uploadStepFs (env : UploadEnv) (sD dD : Path) (n : Path × FNode) (fs : Fs) : Fs :=
  if env.lstatFails (sD ++ n.1) then fs
  else
    match n.2 with
    | .dir => if env.mkdirFails (dD ++ n.1) then fs else Fs.mkdirAll fs (dD ++ n.1)
    | .file c =>
      if env.openFails (sD ++ n.1) then fs
      else if env.createFails (dD ++ n.1) then fs
      else if env.copyFails (dD ++ n.1) then Fs.insert fs (dD ++ n.1) (FNode.file [])
      else Fs.insert fs (dD ++ n.1) (FNode.file c)

/-- Fail-fast fold of a per-node step over a walk enumeration: the walk
aborts at the first step that reports an error (filepath.Walk stops when
the callback returns a non-nil error; downloadDirectory returns out of its
loop), keeping the state the failing step left behind. -/
def walkFold (stepE : Path × FNode → Option Err) (stepF : Path × FNode → Fs → Fs) :
    List (Path × FNode) → Fs → Option Err × Fs
  | [], fs => (none, fs)
  | n :: rest, fs =>
    match stepE n with
    | some e => (some e, stepF n fs)
    | none => walkFold stepE stepF rest (stepF n fs)

/-- client.go lines 203-244, uploadDirectory: open one sftp sub-channel
for the whole subtree (closed by defer), then filepath.Walk the local
tree, `w` being the walk's enumeration of relative paths (root `[]`
first, parents before children). -/
def uploadDirectory (env : UploadEnv) (sD dD : Path) (w : List (Path × FNode)) (remote : Fs) :
    Option Err × Fs × List Event :=
  if env.sftpFails then (some .sftpError, remote, [])
  else
    let r := walkFold (uploadStepErr env sD dD) (uploadStepFs env sD dD) w remote
    (r.1, r.2, [.sftpOpen, .sftpClose])

/-- The result of os.Stat on the local source path: a regular file with
its content, or a directory with its walk enumeration. -/
inductive LocalSource where
  | file (content : List Nat)
  | dir (walk : List (Path × FNode))

/-- client.go lines 165-178, Upload: stat the source (`none` = stat
failed), return a StatError immediately on failure, otherwise dispatch on
IsDir. -/
def Upload (env : UploadEnv) (src : Option LocalSource) (sp dp : Path) (remote : Fs) :
    Option Err × Fs × List Event :=
  match src with
  | none => (some (.statError sp), remote, [])
  | some (.file c) => uploadFile env c sp dp remote
  | some (.dir w) => uploadDirectory env sp dp w remote

/-- client.go lines 247-269, UploadV1: os.Open the local file first
(`src = none` when nothing readable is there), then open the sftp
sub-channel, create the remote file and stream-copy; deferred closes
(remote, ftp, local) run in LIFO order. -/
def UploadV1 (env : UploadEnv) (src : Option (List Nat)) (sp dp : Path) (remote : Fs) :
    Option Err × Fs × List Event :=
  match src with
  | none => (some (.openError sp), remote, [])
  | some c =>
    if env.openFails sp then (some (.openError sp), remote, [])
    else if env.sftpFails then (some .sftpError, remote, [.localOpen sp, .closeFile sp])
    else if env.createFails dp then
      (some (.createError dp), remote, [.localOpen sp, .sftpOpen, .sftpClose, .closeFile sp])
    else if env.copyFails dp then
      (some (.copyError dp), Fs.insert remote dp (FNode.file []),
        [.localOpen sp, .sftpOpen, .remoteCreate dp, .closeFile dp, .sftpClose, .closeFile sp])
    else
      (none, Fs.insert remote dp (FNode.file c),
        [.localOpen sp, .sftpOpen, .remoteCreate dp, .copy dp, .closeFile dp, .sftpClose,
          .closeFile sp])

/-- client.go lines 319-341, downloadFile: sftp-open the remote file,
os.MkdirAll the local parent directory, os.Create the local file,
io.Copy, then dstFile.Sync() whose error is returned; the deferred closes
(dstFile then srcFile) run after Sync on every path.  A failed copy
leaves the created (partial, modelled empty) local file behind. -/
def downloadFile (env : DownloadEnv) (remote : Fs) (rp lp : Path) (lfs : Fs) :
    Option Err × Fs × List Event :=
  match Fs.lookup remote rp with
  | some (FNode.file c) =>
    if env.remoteOpenFails rp then (some (.openError rp), lfs, [])
    else if env.localMkdirFails lp.dropLast then
      (some (.mkdirError lp.dropLast), lfs, [.remoteOpen rp, .closeFile rp])
    else if env.localCreateFails lp then
      (some (.createError lp), Fs.mkdirAll lfs lp.dropLast,
        [.remoteOpen rp, .localMkdirAll lp.dropLast, .closeFile rp])
    else if env.copyFails lp then
      (some (.copyError lp), Fs.insert (Fs.mkdirAll lfs lp.dropLast) lp (FNode.file []),
        [.remoteOpen rp, .localMkdirAll lp.dropLast, .localCreate lp, .closeFile lp,
          .closeFile rp])
    else if env.syncFails lp then
      (some (.syncError lp), Fs.insert (Fs.mkdirAll lfs lp.dropLast) lp (FNode.file c),
        [.remoteOpen rp, .localMkdirAll lp.dropLast, .localCreate lp, .copy lp, .closeFile lp,
          .closeFile rp])
    else
      (none, Fs.insert (Fs.mkdirAll lfs lp.dropLast) lp (FNode.file c),
        [.remoteOpen rp, .localMkdirAll lp.dropLast, .localCreate lp, .copy lp, .sync lp,
          .closeFile lp, .closeFile rp])
  | _ => (some (.openError rp), lfs, [])

/-- The error of one iteration of downloadDirectory's loop (client.go
lines 344-370) at relative path `n.1`: walker.Err aborts; a directory's
os.MkdirAll error IS checked and aborts; a file runs downloadFile's
chain (open, parent MkdirAll, create, copy, sync), aborting on its first
error. -/
def downloadStepErr (env : DownloadEnv) (rD lD : Path) (n : Path × FNode) : Option Err :=
  if env.walkErrFails (rD ++ n.1) then some (.statError (rD ++ n.1))
  else
    match n.2 with
    | .dir => if env.localMkdirFails (lD ++ n.1) then some (.mkdirError (lD ++ n.1)) else none
    | .file _ =>
      if env.remoteOpenFails (rD ++ n.1) then some (.openError (rD ++ n.1))
      else if env.localMkdirFails (lD ++ n.1).dropLast then
        some (.mkdirError (lD ++ n.1).dropLast)
      else if env.localCreateFails (lD ++ n.1) then some (.createError (lD ++ n.1))
      else if env.copyFails (lD ++ n.1) then some (.copyError (lD ++ n.1))
      else if env.syncFails (lD ++ n.1) then some (.syncError (lD ++ n.1))
      else none

/-- The local-filesystem effect of that iteration; a sync failure still
leaves the fully copied file (the bytes were written before Sync). -/
def downloadStepFs (env : DownloadEnv) (rD lD : Path) (n : Path × FNode) (fs : Fs) : Fs :=
  if env.walkErrFails (rD ++ n.1) then fs
  else
    match n.2 with
    | .dir => if env.localMkdirFails (lD ++ n.1) then fs else Fs.mkdirAll fs (lD ++ n.1)
    | .file c =>
      if env.remoteOpenFails (rD ++ n.1) then fs
      else if env.localMkdirFails (lD ++ n.1).dropLast then fs
      else if env.localCreateFails (lD ++ n.1) then Fs.mkdirAll fs (lD ++ n.1).dropLast
      else if env.copyFails (lD ++ n.1) then
        Fs.insert (Fs.mkdirAll fs (lD ++ n.1).dropLast) (lD ++ n.1) (FNode.file [])
      else Fs.insert (Fs.mkdirAll fs (lD ++ n.1).dropLast) (lD ++ n.1) (FNode.file c)

/-- client.go lines 344-370, downloadDirectory: iterate the sftp walker's
enumeration `w` of the remote tree (root first, parents before children),
fail-fast. -/
def downloadDirectory (env : DownloadEnv) (rD lD : Path) (w : List (Path × FNode)) (lfs : Fs) :
    Option Err × Fs :=
  walkFold (downloadStepErr env rD lD) (downloadStepFs env rD lD) w lfs

/-- Black-box outcome of one Run invocation: whether NewSession fails,
what CombinedOutput returns (merged stdout+stderr and the execution
error), and whether the deferred sess.Close() would report an error. -/
structure RunEnv where
  newSessionFails : Bool
  output : List Nat
  execErr : Option Err
  closeFails : Bool

/-- client.go lines 97-111, Run: open one command sub-channel
(NewSession), defer sess.Close(), return CombinedOutput.  The deferred
Close's error is discarded by the source — only CombinedOutput's error is
returned. -/
def Run (env : RunEnv) : Option Err × List Nat × List Event :=
  if env.newSessionFails then (some .sessionError, [], [])
  else (env.execErr, env.output, [.chanOpen, .exec, .chanClose])

/-- The underlying transport connection (ssh.Client wrapping a net.Conn):
only its closed/open state matters here. -/
structure Conn where
  closed : Bool
deriving DecidableEq

/-- Modelled from the documented behaviour of the external transport
(x/crypto/ssh Client.Close closes the underlying network connection;
net: closing an already-closed connection returns net.ErrClosed): the
first Close succeeds and marks the connection closed, a second Close
reports the already-closed error. -/
def sshConnClose (c : Conn) : Option Err × Conn :=
  if c.closed then (some .errClosed, c) else (none, { closed := true })

/-- client.go lines 161-163, Close: a pure delegation to the transport
connection's Close — goph adds no idempotency layer of its own. -/
def Close (c : Conn) : Option Err × Conn := sshConnClose c

/-- A host-identity verification policy value (ssh.HostKeyCallback). -/
inductive HostPolicy where
  | knownHostsCheck
  | insecureAcceptAny
deriving DecidableEq

/-- The goph Config fields relevant to dialing (client.go lines 26-34):
the host-key callback is optional because the Config struct's zero value
carries none. -/
structure SshConfig where
  user : String
  addr : String
  port : Nat
  callback : Option HostPolicy
deriving DecidableEq

/-- client.go DefaultKnownHosts (declared in a sibling file of this
package): builds the trust-store-backed known-hosts callback, failing
when the known-hosts store cannot be loaded. -/
def DefaultKnownHosts (knownHostsReadable : Bool) : Option HostPolicy :=
  if knownHostsReadable then some .knownHostsCheck else none

/-- client.go lines 40-57, New: load the known-hosts callback (return its
error without dialing on failure) and dial with a Config whose Callback
is that trust-store check; returns the Config handed to NewConn. -/
def New (knownHostsReadable : Bool) (user addr : String) : Option SshConfig :=
  match DefaultKnownHosts knownHostsReadable with
  | none => none
  | some cb => some { user := user, addr := addr, port := 22, callback := some cb }

/-- client.go lines 63-72, NewUnknown: dial with the explicit insecure
accept-any callback (ssh.InsecureIgnoreHostKey). -/
def NewUnknown (user addr : String) : SshConfig :=
  { user := user, addr := addr, port := 22, callback := some .insecureAcceptAny }

/-- client.go lines 86-94, Dial, composed with the external ssh.Dial's
documented validation (modelled from x/crypto/ssh: a ClientConfig with no
HostKeyCallback is rejected with a configuration error, never silently
accepted): with a policy set, the dial succeeds or fails per the network
oracle. -/
def Dial (dialFails : Bool) (cfg : SshConfig) : Option Err × Option Conn :=
  match cfg.callback with
  | none => (some .hostKeyPolicyMissing, none)
  | some _ => if dialFails then (some .connError, none) else (none, some { closed := false })

/-- All-success oracles and concrete fault oracles used by the witnesses. -/
def okUpEnv : UploadEnv :=
  { sftpFails := false, lstatFails := fun _ => false, openFails := fun _ => false,
    createFails := fun _ => false, copyFails := fun _ => false, mkdirFails := fun _ => false }

def okDownEnv : DownloadEnv :=
  { walkErrFails := fun _ => false, remoteOpenFails := fun _ => false,
    localMkdirFails := fun _ => false, localCreateFails := fun _ => false,
    copyFails := fun _ => false, syncFails := fun _ => false }

def mkdirFailEnv : UploadEnv :=
  { okUpEnv with mkdirFails := fun p => p == (["dst"] : Path) }

def copyFailUpEnv : UploadEnv :=
  { okUpEnv with copyFails := fun p => p == (["dst", "b"] : Path) }

def createFailDownEnv : DownloadEnv :=
  { okDownEnv with localCreateFails := fun p => p == (["l", "y"] : Path) }

def runCloseFailEnv : RunEnv :=
  { newSessionFails := false, output := [104, 105], execErr := none, closeFails := true }

theorem Fs.lookup_insert_self (fs : Fs) (p : Path) (nd : FNode) :
    Fs.lookup (Fs.insert fs p nd) p = some nd := by
  simp [Fs.lookup, Fs.insert, findEntry]

theorem Fs.lookup_insert_ne (fs : Fs) (p q : Path) (nd : FNode) (h : p ≠ q) :
    Fs.lookup (Fs.insert fs p nd) q = Fs.lookup fs q := by
  simp [Fs.lookup, Fs.insert, findEntry, h]

theorem Fs.lookup_insertIfAbsent_some (fs : Fs) (p q : Path) (nd v : FNode)
    (h : Fs.lookup fs q = some v) :
    Fs.lookup (Fs.insertIfAbsent fs p nd) q = some v := by
  unfold Fs.insertIfAbsent
  cases hl : Fs.lookup fs p with
  | some w => exact h
  | none =>
    have hne : p ≠ q := by
      intro he
      rw [he, h] at hl
      cases hl
    rw [Fs.lookup_insert_ne fs p q nd hne]
    exact h

theorem Fs.lookup_insertIfAbsent_ne (fs : Fs) (p q : Path) (nd : FNode) (h : p ≠ q) :
    Fs.lookup (Fs.insertIfAbsent fs p nd) q = Fs.lookup fs q := by
  unfold Fs.insertIfAbsent
  cases hl : Fs.lookup fs p with
  | some w => rfl
  | none => exact Fs.lookup_insert_ne fs p q nd h

theorem Fs.lookup_insertIfAbsent_none (fs : Fs) (p : Path) (nd : FNode)
    (h : Fs.lookup fs p = none) :
    Fs.lookup (Fs.insertIfAbsent fs p nd) p = some nd := by
  unfold Fs.insertIfAbsent
  rw [h]
  exact Fs.lookup_insert_self fs p nd

theorem Fs.mkdirs_preserve_some (ps : List Path) :
    ∀ (fs : Fs) (q : Path) (v : FNode), Fs.lookup fs q = some v →
      Fs.lookup (Fs.mkdirs fs ps) q = some v := by
  induction ps with
  | nil => intro fs q v h; simpa [Fs.mkdirs] using h
  | cons a rest ih =>
    intro fs q v h
    have h' := Fs.lookup_insertIfAbsent_some fs a q FNode.dir v h
    simpa [Fs.mkdirs] using ih (Fs.insertIfAbsent fs a FNode.dir) q v h'

theorem Fs.mkdirs_not_mem (ps : List Path) :
    ∀ (fs : Fs) (q : Path), q ∉ ps →
      Fs.lookup (Fs.mkdirs fs ps) q = Fs.lookup fs q := by
  induction ps with
  | nil => intro fs q _; simp [Fs.mkdirs]
  | cons a rest ih =>
    intro fs q hq
    have hne : a ≠ q := fun he => hq (he ▸ List.mem_cons_self a rest)
    have hrest : q ∉ rest := fun hr => hq (List.mem_cons_of_mem a hr)
    have : Fs.lookup (Fs.insertIfAbsent fs a FNode.dir) q = Fs.lookup fs q :=
      Fs.lookup_insertIfAbsent_ne fs a q FNode.dir hne
    calc Fs.lookup (Fs.mkdirs fs (a :: rest)) q
        = Fs.lookup (Fs.mkdirs (Fs.insertIfAbsent fs a FNode.dir) rest) q := by
          simp [Fs.mkdirs]
      _ = Fs.lookup (Fs.insertIfAbsent fs a FNode.dir) q :=
          ih (Fs.insertIfAbsent fs a FNode.dir) q hrest
      _ = Fs.lookup fs q := this

theorem Fs.mkdirs_mem_none (ps : List Path) :
    ∀ (fs : Fs) (q : Path), q ∈ ps → Fs.lookup fs q = none →
      Fs.lookup (Fs.mkdirs fs ps) q = some FNode.dir := by
  induction ps with
  | nil => intro fs q hq _; cases hq
  | cons a rest ih =>
    intro fs q hq hnone
    by_cases hqa : q = a
    · subst hqa
      have h1 : Fs.lookup (Fs.insertIfAbsent fs q FNode.dir) q = some FNode.dir :=
        Fs.lookup_insertIfAbsent_none fs q FNode.dir hnone
      have := Fs.mkdirs_preserve_some rest (Fs.insertIfAbsent fs q FNode.dir) q FNode.dir h1
      simpa [Fs.mkdirs] using this
    · have hrest : q ∈ rest := by
        rcases List.mem_cons.mp hq with h | h
        · exact absurd h hqa
        · exact h
      have hne : a ≠ q := fun he => hqa he.symm
      have h1 : Fs.lookup (Fs.insertIfAbsent fs a FNode.dir) q = none := by
        rw [Fs.lookup_insertIfAbsent_ne fs a q FNode.dir hne]
        exact hnone
      have := ih (Fs.insertIfAbsent fs a FNode.dir) q hrest h1
      simpa [Fs.mkdirs] using this

theorem mem_prefixList (q p : Path) : q ∈ prefixList p ↔ ∃ s, q ++ s = p := by
  induction p generalizing q with
  | nil =>
    simp only [prefixList, List.mem_singleton]
    constructor
    · rintro rfl; exact ⟨[], rfl⟩
    · rintro ⟨s, hs⟩
      rcases List.append_eq_nil.mp hs with ⟨h1, _⟩
      exact h1
  | cons a rest ih =>
    simp only [prefixList, List.mem_cons, List.mem_map]
    constructor
    · rintro (rfl | ⟨q', hq', rfl⟩)
      · exact ⟨a :: rest, rfl⟩
      · obtain ⟨s, hs⟩ := (ih q').mp hq'
        exact ⟨s, by simp [hs]⟩
    · rintro ⟨s, hs⟩
      cases q with
      | nil => exact Or.inl rfl
      | cons b q' =>
        rw [List.cons_append] at hs
        injection hs with h1 h2
        subst h1
        exact Or.inr ⟨q', (ih q').mpr ⟨s, h2⟩, rfl⟩

theorem self_mem_prefixList (p : Path) : p ∈ prefixList p :=
  (mem_prefixList p p).mpr ⟨[], List.append_nil p⟩

theorem append_mem_prefixList (dD q p : Path) :
    dD ++ q ∈ prefixList (dD ++ p) ↔ q ∈ prefixList p := by
  rw [mem_prefixList, mem_prefixList]
  constructor
  · rintro ⟨s, hs⟩
    rw [List.append_assoc] at hs
    exact ⟨s, List.append_cancel_left hs⟩
  · rintro ⟨s, hs⟩
    exact ⟨s, by rw [List.append_assoc, hs]⟩

theorem strictAncestor_of_mem_prefixList (q p : Path) (hm : q ∈ prefixList p) (hne : q ≠ p) :
    strictAncestor q p := by
  obtain ⟨s, hs⟩ := (mem_prefixList q p).mp hm
  subst hs
  have hsne : s ≠ [] := by
    intro h
    subst h
    exact hne (List.append_nil q).symm
  constructor
  · have : 0 < s.length := List.length_pos.mpr hsne
    simp only [List.length_append]
    omega
  · exact List.take_left q s

theorem uploadStepErr_none_of_noFaults (env : UploadEnv) (h : env.noFaults)
    (sD dD : Path) (n : Path × FNode) : uploadStepErr env sD dD n = none := by
  obtain ⟨h1, h2, h3, h4, h5, h6⟩ := h
  obtain ⟨p, nd⟩ := n
  cases nd <;> simp [uploadStepErr, h2, h3, h4, h5]

theorem uploadStepFs_file_of_noFaults (env : UploadEnv) (h : env.noFaults)
    (sD dD p : Path) (c : List Nat) (fs : Fs) :
    uploadStepFs env sD dD (p, FNode.file c) fs = Fs.insert fs (dD ++ p) (FNode.file c) := by
  obtain ⟨h1, h2, h3, h4, h5, h6⟩ := h
  simp [uploadStepFs, h2, h3, h4, h5]

theorem uploadStepFs_dir_of_noFaults (env : UploadEnv) (h : env.noFaults)
    (sD dD p : Path) (fs : Fs) :
    uploadStepFs env sD dD (p, FNode.dir) fs = Fs.mkdirAll fs (dD ++ p) := by
  obtain ⟨h1, h2, h3, h4, h5, h6⟩ := h
  simp [uploadStepFs, h2, h6]

theorem walkFold_first_fail (stepE : Path × FNode → Option Err) (stepF : Path × FNode → Fs → Fs)
    (pre : List (Path × FNode)) (x : Path × FNode) (post : List (Path × FNode)) (e : Err)
    (hpre : ∀ n ∈ pre, stepE n = none) (hx : stepE x = some e) :
    ∀ fs : Fs, walkFold stepE stepF (pre ++ x :: post) fs
      = (some e, stepF x (walkFold stepE stepF pre fs).2) := by
  induction pre with
  | nil =>
    intro fs
    simp [walkFold, hx]
  | cons a as ih =>
    intro fs
    have ha := hpre a (List.mem_cons_self a as)
    simp only [List.cons_append, walkFold, ha]
    exact ih (fun n hn => hpre n (List.mem_cons_of_mem a hn)) (stepF a fs)

theorem walkFold_mirror (env : UploadEnv) (henv : env.noFaults) (sD dD : Path)
    (L : List (Path × FNode)) :
    ∀ fs : Fs,
    (L.map Prod.fst).Nodup →
    (∀ x ∈ L, ∀ y ∈ L, strictAncestor y.1 x.1 → y.2 = FNode.dir) →
    (∀ x ∈ L, Fs.lookup fs (dD ++ x.1) = none
      ∨ (x.2 = FNode.dir ∧ Fs.lookup fs (dD ++ x.1) = some FNode.dir)) →
    (walkFold (uploadStepErr env sD dD) (uploadStepFs env sD dD) L fs).1 = none
    ∧ (∀ q v, Fs.lookup fs q = some v →
        Fs.lookup (walkFold (uploadStepErr env sD dD) (uploadStepFs env sD dD) L fs).2 q = some v)
    ∧ (∀ x ∈ L,
        Fs.lookup (walkFold (uploadStepErr env sD dD) (uploadStepFs env sD dD) L fs).2 (dD ++ x.1)
          = some x.2) := by
  induction L with
  | nil =>
    intro fs _ _ _
    refine ⟨rfl, ?_, ?_⟩
    · intro q v h; simpa [walkFold] using h
    · intro x hx; cases hx
  | cons hd t ih =>
    obtain ⟨p, nd⟩ := hd
    intro fs hnd hanc h2
    have hstep : uploadStepErr env sD dD (p, nd) = none :=
      uploadStepErr_none_of_noFaults env henv sD dD (p, nd)
    have hw : walkFold (uploadStepErr env sD dD) (uploadStepFs env sD dD) ((p, nd) :: t) fs
        = walkFold (uploadStepErr env sD dD) (uploadStepFs env sD dD) t
            (uploadStepFs env sD dD (p, nd) fs) := by
      simp [walkFold, hstep]
    rw [hw]
    have hpmem : p ∉ t.map Prod.fst := by
      simp only [List.map_cons, List.nodup_cons] at hnd
      exact hnd.1
    have hndt : (t.map Prod.fst).Nodup := by
      simp only [List.map_cons, List.nodup_cons] at hnd
      exact hnd.2
    have hxne : ∀ x ∈ t, x.1 ≠ p := by
      intro x hx he
      exact hpmem (he ▸ List.mem_map_of_mem Prod.fst hx)
    have hanct : ∀ x ∈ t, ∀ y ∈ t, strictAncestor y.1 x.1 → y.2 = FNode.dir :=
      fun x hx y hy h =>
        hanc x (List.mem_cons_of_mem _ hx) y (List.mem_cons_of_mem _ hy) h
    cases nd with
    | file c =>
      rw [uploadStepFs_file_of_noFaults env henv sD dD p c fs]
      have hnone : Fs.lookup fs (dD ++ p) = none := by
        rcases h2 (p, FNode.file c) (List.mem_cons_self _ _) with h | ⟨hdir, _⟩
        · exact h
        · exact absurd hdir (by simp)
      have h2' : ∀ x ∈ t,
          Fs.lookup (Fs.insert fs (dD ++ p) (FNode.file c)) (dD ++ x.1) = none
          ∨ (x.2 = FNode.dir
              ∧ Fs.lookup (Fs.insert fs (dD ++ p) (FNode.file c)) (dD ++ x.1)
                  = some FNode.dir) := by
        intro x hx
        have hne : (dD ++ p) ≠ (dD ++ x.1) := by
          intro he
          exact hxne x hx (List.append_cancel_left he).symm
        rw [Fs.lookup_insert_ne fs (dD ++ p) (dD ++ x.1) (FNode.file c) hne]
        exact h2 x (List.mem_cons_of_mem _ hx)
      obtain ⟨e', mono', mir'⟩ := ih (Fs.insert fs (dD ++ p) (FNode.file c)) hndt hanct h2'
      refine ⟨e', ?_, ?_⟩
      · intro q v hq
        have hqne : (dD ++ p) ≠ q := by
          intro he
          rw [← he, hnone] at hq
          cases hq
        exact mono' q v (by rw [Fs.lookup_insert_ne fs (dD ++ p) q (FNode.file c) hqne]; exact hq)
      · intro x hx
        rcases List.mem_cons.mp hx with rfl | hx'
        · exact mono' (dD ++ p) (FNode.file c) (Fs.lookup_insert_self fs (dD ++ p) (FNode.file c))
        · exact mir' x hx'
    | dir =>
      rw [uploadStepFs_dir_of_noFaults env henv sD dD p fs]
      have hself : Fs.lookup (Fs.mkdirAll fs (dD ++ p)) (dD ++ p) = some FNode.dir := by
        rcases h2 (p, FNode.dir) (List.mem_cons_self _ _) with h | ⟨_, h⟩
        · exact Fs.mkdirs_mem_none (prefixList (dD ++ p)) fs (dD ++ p)
            (self_mem_prefixList (dD ++ p)) h
        · exact Fs.mkdirs_preserve_some (prefixList (dD ++ p)) fs (dD ++ p) FNode.dir h
      have h2' : ∀ x ∈ t,
          Fs.lookup (Fs.mkdirAll fs (dD ++ p)) (dD ++ x.1) = none
          ∨ (x.2 = FNode.dir
              ∧ Fs.lookup (Fs.mkdirAll fs (dD ++ p)) (dD ++ x.1) = some FNode.dir) := by
        intro x hx
        by_cases hm : (dD ++ x.1) ∈ prefixList (dD ++ p)
        · have hxp : x.1 ∈ prefixList p := (append_mem_prefixList dD x.1 p).mp hm
          have hsa : strictAncestor x.1 p :=
            strictAncestor_of_mem_prefixList x.1 p hxp (hxne x hx)
          have hxdir : x.2 = FNode.dir :=
            hanc (p, FNode.dir) (List.mem_cons_self _ _) x (List.mem_cons_of_mem _ hx) hsa
          rcases h2 x (List.mem_cons_of_mem _ hx) with h | ⟨_, h⟩
          · exact Or.inr ⟨hxdir,
              Fs.mkdirs_mem_none (prefixList (dD ++ p)) fs (dD ++ x.1) hm h⟩
          · exact Or.inr ⟨hxdir,
              Fs.mkdirs_preserve_some (prefixList (dD ++ p)) fs (dD ++ x.1) FNode.dir h⟩
        · rw [Fs.mkdirAll, Fs.mkdirs_not_mem (prefixList (dD ++ p)) fs (dD ++ x.1) hm]
          exact h2 x (List.mem_cons_of_mem _ hx)
      obtain ⟨e', mono', mir'⟩ := ih (Fs.mkdirAll fs (dD ++ p)) hndt hanct h2'
      refine ⟨e', ?_, ?_⟩
      · intro q v hq
        exact mono' q v (Fs.mkdirs_preserve_some (prefixList (dD ++ p)) fs q v hq)
      · intro x hx
        rcases List.mem_cons.mp hx with rfl | hx'
        · exact mono' (dD ++ p) FNode.dir hself
        · exact mir' x hx'

theorem uploadStepErr_path (env : UploadEnv) (sD dD : Path) (x : Path × FNode) (e : Err)
    (h : uploadStepErr env sD dD x = some e) :
    ∃ q, errPath e = some q ∧ (q = sD ++ x.1 ∨ q = dD ++ x.1) := by
  obtain ⟨p, nd⟩ := x
  simp only [uploadStepErr] at h
  by_cases h1 : env.lstatFails (sD ++ p)
  · rw [if_pos h1] at h
    injection h with h
    subst h
    exact ⟨sD ++ p, rfl, Or.inl rfl⟩
  · rw [if_neg h1] at h
    cases nd with
    | dir => cases h
    | file c =>
      by_cases h2 : env.openFails (sD ++ p)
      · rw [if_pos h2] at h
        injection h with h
        subst h
        exact ⟨sD ++ p, rfl, Or.inl rfl⟩
      · rw [if_neg h2] at h
        by_cases h3 : env.createFails (dD ++ p)
        · rw [if_pos h3] at h
          injection h with h
          subst h
          exact ⟨dD ++ p, rfl, Or.inr rfl⟩
        · rw [if_neg h3] at h
          by_cases h4 : env.copyFails (dD ++ p)
          · rw [if_pos h4] at h
            injection h with h
            subst h
            exact ⟨dD ++ p, rfl, Or.inr rfl⟩
          · rw [if_neg h4] at h
            cases h

theorem downloadStepErr_path (env : DownloadEnv) (rD lD : Path) (x : Path × FNode) (e : Err)
    (h : downloadStepErr env rD lD x = some e) :
    ∃ q, errPath e = some q
      ∧ (q = rD ++ x.1 ∨ q = lD ++ x.1 ∨ q = (lD ++ x.1).dropLast) := by
  obtain ⟨p, nd⟩ := x
  simp only [downloadStepErr] at h
  by_cases h1 : env.walkErrFails (rD ++ p)
  · rw [if_pos h1] at h
    injection h with h
    subst h
    exact ⟨rD ++ p, rfl, Or.inl rfl⟩
  · rw [if_neg h1] at h
    cases nd with
    | dir =>
      by_cases h2 : env.localMkdirFails (lD ++ p)
      · rw [if_pos h2] at h
        injection h with h
        subst h
        exact ⟨lD ++ p, rfl, Or.inr (Or.inl rfl)⟩
      · rw [if_neg h2] at h
        cases h
    | file c =>
      by_cases h2 : env.remoteOpenFails (rD ++ p)
      · rw [if_pos h2] at h
        injection h with h
        subst h
        exact ⟨rD ++ p, rfl, Or.inl rfl⟩
      · rw [if_neg h2] at h
        by_cases h3 : env.localMkdirFails (lD ++ p).dropLast
        · rw [if_pos h3] at h
          injection h with h
          subst h
          exact ⟨(lD ++ p).dropLast, rfl, Or.inr (Or.inr rfl)⟩
        · rw [if_neg h3] at h
          by_cases h4 : env.localCreateFails (lD ++ p)
          · rw [if_pos h4] at h
            injection h with h
            subst h
            exact ⟨lD ++ p, rfl, Or.inr (Or.inl rfl)⟩
          · rw [if_neg h4] at h
            by_cases h5 : env.copyFails (lD ++ p)
            · rw [if_pos h5] at h
              injection h with h
              subst h
              exact ⟨lD ++ p, rfl, Or.inr (Or.inl rfl)⟩
            · rw [if_neg h5] at h
              by_cases h6 : env.syncFails (lD ++ p)
              · rw [if_pos h6] at h
                injection h with h
                subst h
                exact ⟨lD ++ p, rfl, Or.inr (Or.inl rfl)⟩
              · rw [if_neg h6] at h
                cases h

/-- C1: with no faults, uploading a directory tree produces at the
destination root a mirror of the source tree: every node of the walk
enumeration — every directory, including empty ones, and every regular
file with its exact bytes — exists under the destination root at the same
relative path, and the upload reports no error.  (`hnd` and `hanc` say
the enumeration comes from a real tree: no duplicate paths, and any
proper ancestor of a visited node is a directory; `hclean` says the
destination region is initially empty.) -/
theorem upload_directory_mirrors_tree (env : UploadEnv) (henv : env.noFaults)
    (sD dD : Path) (w : List (Path × FNode)) (fs : Fs)
    (hnd : (w.map Prod.fst).Nodup)
    (hanc : ∀ x ∈ w, ∀ y ∈ w, strictAncestor y.1 x.1 → y.2 = FNode.dir)
    (hclean : ∀ x ∈ w, Fs.lookup fs (dD ++ x.1) = none) :
    (uploadDirectory env sD dD w fs).1 = none
    ∧ ∀ x ∈ w, Fs.lookup (uploadDirectory env sD dD w fs).2.1 (dD ++ x.1) = some x.2 := by
  have h := walkFold_mirror env henv sD dD w fs hnd hanc
    (fun x hx => Or.inl (hclean x hx))
  have hs : env.sftpFails = false := henv.1
  constructor
  · simp only [uploadDirectory, hs, Bool.false_eq_true, if_false]
    exact h.1
  · intro x hx
    simp only [uploadDirectory, hs, Bool.false_eq_true, if_false]
    exact h.2.2 x hx

theorem upload_directory_mirrors_tree_witness :
    (uploadDirectory okUpEnv ["src"] ["dst"]
        [([], FNode.dir), (["a"], FNode.dir), (["a", "f.txt"], FNode.file [10, 20]),
          (["b"], FNode.dir)] emptyFs).1 = none
    ∧ Fs.lookup (uploadDirectory okUpEnv ["src"] ["dst"]
        [([], FNode.dir), (["a"], FNode.dir), (["a", "f.txt"], FNode.file [10, 20]),
          (["b"], FNode.dir)] emptyFs).2.1 (["dst"] ++ ["a", "f.txt"])
        = some (FNode.file [10, 20])
    ∧ Fs.lookup (uploadDirectory okUpEnv ["src"] ["dst"]
        [([], FNode.dir), (["a"], FNode.dir), (["a", "f.txt"], FNode.file [10, 20]),
          (["b"], FNode.dir)] emptyFs).2.1 (["dst"] ++ ["b"]) = some FNode.dir := by
  have hok : okUpEnv.noFaults :=
    ⟨rfl, fun _ => rfl, fun _ => rfl, fun _ => rfl, fun _ => rfl, fun _ => rfl⟩
  have h := upload_directory_mirrors_tree okUpEnv hok ["src"] ["dst"]
      [([], FNode.dir), (["a"], FNode.dir), (["a", "f.txt"], FNode.file [10, 20]),
        (["b"], FNode.dir)] emptyFs (by decide) (by decide) (by decide)
  exact ⟨h.1, h.2 (["a", "f.txt"], FNode.file [10, 20]) (by decide),
    h.2 (["b"], FNode.dir) (by decide)⟩

/-- C2: round-trip identity — with no faults, uploading a regular file of
content `c` and then downloading the same remote path yields a local file
with byte-identical content `c`. -/
theorem upload_download_roundtrip (envU : UploadEnv) (envD : DownloadEnv)
    (hU : envU.noFaults) (hD : envD.noFaults)
    (c : List Nat) (sp dp lp : Path) (remote lfs : Fs) :
    (uploadFile envU c sp dp remote).1 = none
    ∧ (downloadFile envD (uploadFile envU c sp dp remote).2.1 dp lp lfs).1 = none
    ∧ Fs.lookup (downloadFile envD (uploadFile envU c sp dp remote).2.1 dp lp lfs).2.1 lp
        = some (FNode.file c) := by
  obtain ⟨u1, u2, u3, u4, u5, u6⟩ := hU
  obtain ⟨d1, d2, d3, d4, d5, d6⟩ := hD
  have e1 : uploadFile envU c sp dp remote
      = (none, Fs.insert remote dp (FNode.file c),
        [.sftpOpen, .localOpen sp, .remoteCreate dp, .copy dp, .closeFile dp, .closeFile sp,
          .sftpClose]) := by
    simp [uploadFile, u1, u3, u4, u5]
  rw [e1]
  have e2 : downloadFile envD (Fs.insert remote dp (FNode.file c)) dp lp lfs
      = (none, Fs.insert (Fs.mkdirAll lfs lp.dropLast) lp (FNode.file c),
        [.remoteOpen dp, .localMkdirAll lp.dropLast, .localCreate lp, .copy lp, .sync lp,
          .closeFile lp, .closeFile dp]) := by
    simp [downloadFile, Fs.lookup_insert_self, d2, d3, d4, d5, d6]
  rw [e2]
  exact ⟨rfl, rfl, Fs.lookup_insert_self (Fs.mkdirAll lfs lp.dropLast) lp (FNode.file c)⟩

theorem upload_download_roundtrip_witness :
    (uploadFile okUpEnv [3, 1, 4] ["f"] ["r", "f"] emptyFs).1 = none
    ∧ Fs.lookup (downloadFile okDownEnv
        (uploadFile okUpEnv [3, 1, 4] ["f"] ["r", "f"] emptyFs).2.1
        ["r", "f"] ["g"] emptyFs).2.1 ["g"] = some (FNode.file [3, 1, 4]) := by
  have hokU : okUpEnv.noFaults :=
    ⟨rfl, fun _ => rfl, fun _ => rfl, fun _ => rfl, fun _ => rfl, fun _ => rfl⟩
  have hokD : okDownEnv.noFaults :=
    ⟨fun _ => rfl, fun _ => rfl, fun _ => rfl, fun _ => rfl, fun _ => rfl, fun _ => rfl⟩
  have h := upload_download_roundtrip okUpEnv okDownEnv hokU hokD [3, 1, 4] ["f"] ["r", "f"]
      ["g"] emptyFs emptyFs
  exact ⟨h.1, h.2.2⟩

/-- C3: during a directory upload or download, the first failing step
(stat/open/create/copy/sync at some node `x`) aborts the walk immediately
— the result does not depend on the nodes after `x` — and the error it
raised is propagated to the caller unchanged; the destination equals the
state after the successful prefix plus the failing step's partial effect
(previously written nodes remain, no rollback), and the error carries the
failing node's path (source side, target side, or the target's parent for
a parent-mkdir failure). -/
theorem walk_fail_fast_no_rollback
    (envU : UploadEnv) (envD : DownloadEnv) (sD dD rD lD : Path) (fsU fsD : Fs)
    (preU postU preD postD : List (Path × FNode)) (xU xD : Path × FNode) (eU eD : Err)
    (hsftp : envU.sftpFails = false)
    (hpreU : ∀ n ∈ preU, uploadStepErr envU sD dD n = none)
    (hxU : uploadStepErr envU sD dD xU = some eU)
    (hpreD : ∀ n ∈ preD, downloadStepErr envD rD lD n = none)
    (hxD : downloadStepErr envD rD lD xD = some eD) :
    (uploadDirectory envU sD dD (preU ++ xU :: postU) fsU
      = (some eU, uploadStepFs envU sD dD xU
          (walkFold (uploadStepErr envU sD dD) (uploadStepFs envU sD dD) preU fsU).2,
        [Event.sftpOpen, Event.sftpClose]))
    ∧ (∃ q, errPath eU = some q ∧ (q = sD ++ xU.1 ∨ q = dD ++ xU.1))
    ∧ (downloadDirectory envD rD lD (preD ++ xD :: postD) fsD
      = (some eD, downloadStepFs envD rD lD xD
          (walkFold (downloadStepErr envD rD lD) (downloadStepFs envD rD lD) preD fsD).2))
    ∧ (∃ q, errPath eD = some q
        ∧ (q = rD ++ xD.1 ∨ q = lD ++ xD.1 ∨ q = (lD ++ xD.1).dropLast)) := by
  refine ⟨?_, uploadStepErr_path envU sD dD xU eU hxU, ?_,
    downloadStepErr_path envD rD lD xD eD hxD⟩
  · have hfold := walkFold_first_fail (uploadStepErr envU sD dD) (uploadStepFs envU sD dD)
      preU xU postU eU hpreU hxU fsU
    simp [uploadDirectory, hsftp, hfold]
  · unfold downloadDirectory
    exact walkFold_first_fail (downloadStepErr envD rD lD) (downloadStepFs envD rD lD)
      preD xD postD eD hpreD hxD fsD

theorem walk_fail_fast_no_rollback_witness :
    uploadDirectory copyFailUpEnv ["s"] ["dst"]
        [([], FNode.dir), (["a"], FNode.file [1]), (["b"], FNode.file [2]),
          (["c"], FNode.file [3])] emptyFs
      = (some (Err.copyError ["dst", "b"]),
          uploadStepFs copyFailUpEnv ["s"] ["dst"] (["b"], FNode.file [2])
            (walkFold (uploadStepErr copyFailUpEnv ["s"] ["dst"])
              (uploadStepFs copyFailUpEnv ["s"] ["dst"])
              [([], FNode.dir), (["a"], FNode.file [1])] emptyFs).2,
          [Event.sftpOpen, Event.sftpClose])
    ∧ downloadDirectory createFailDownEnv ["r"] ["l"]
        [([], FNode.dir), (["y"], FNode.file [5])] emptyFs
      = (some (Err.createError ["l", "y"]),
          downloadStepFs createFailDownEnv ["r"] ["l"] (["y"], FNode.file [5])
            (walkFold (downloadStepErr createFailDownEnv ["r"] ["l"])
              (downloadStepFs createFailDownEnv ["r"] ["l"]) [([], FNode.dir)] emptyFs).2) := by
  have h := walk_fail_fast_no_rollback copyFailUpEnv createFailDownEnv ["s"] ["dst"] ["r"] ["l"]
      emptyFs emptyFs [([], FNode.dir), (["a"], FNode.file [1])] [(["c"], FNode.file [3])]
      [([], FNode.dir)] [] (["b"], FNode.file [2]) (["y"], FNode.file [5])
      (Err.copyError ["dst", "b"]) (Err.createError ["l", "y"])
      rfl (by decide) (by decide) (by decide) (by decide)
  exact ⟨h.1, h.2.2.1⟩

/-- C4: the claim says a destination-directory creation error during a
directory upload is returned to the immediate caller; in the source
(client.go line 223) the return value of sftpClient.MkdirAll is
discarded, so when the MkdirAll at the destination root fails, the walk
continues and Upload reports success (`none`) with nothing created —
the error is dropped, contradicting the spec's propagation policy. -/
theorem uploadDirectory_drops_mkdir_error :
    uploadDirectory mkdirFailEnv ["src"] ["dst"] [([], FNode.dir)] emptyFs
      = (none, emptyFs, [Event.sftpOpen, Event.sftpClose]) := by decide

/-- C5: when the local stat of the source fails, Upload returns a
StatError naming the source path, the destination filesystem is
unchanged (zero writes), and the event trace is empty — no sftp
sub-channel is opened and no remote create/copy is attempted. -/
theorem upload_stat_error_no_writes (env : UploadEnv) (sp dp : Path) (remote : Fs) :
    Upload env none sp dp remote = (some (Err.statError sp), remote, ([] : List Event)) := rfl

/-- C6: counterexample — the claim says Run returns the sub-channel's
close error if any; in the source (client.go line 108) the sess.Close()
error is discarded by the defer, so on a run whose command succeeds but
whose sub-channel close fails, Run returns no error at all. -/
theorem run_close_error_not_returned :
    runCloseFailEnv.closeFails = true ∧ (Run runCloseFailEnv).1 = none := by decide

/-- C6 (amended): when opening the command sub-channel succeeds, Run
opens exactly one sub-channel and closes it (the close following the
open) before returning, and returns the merged stdout+stderr together
with CombinedOutput's execution error; the deferred close's own error is
discarded. -/
theorem run_single_channel_merged_output (env : RunEnv) (h : env.newSessionFails = false) :
    (Run env).1 = env.execErr ∧ (Run env).2.1 = env.output
    ∧ chanOpens (Run env).2.2 = 1 ∧ chanCloses (Run env).2.2 = 1
    ∧ precedes Event.chanOpen Event.chanClose (Run env).2.2 := by
  have hr : Run env = (env.execErr, env.output, [Event.chanOpen, Event.exec, Event.chanClose]) := by
    simp [Run, h]
  rw [hr]
  exact ⟨rfl, rfl, rfl, rfl, ⟨0, 2, by omega, rfl, rfl⟩⟩

theorem run_single_channel_merged_output_witness :
    (Run runCloseFailEnv).2.1 = [104, 105]
    ∧ chanOpens (Run runCloseFailEnv).2.2 = 1 := by
  have h := run_single_channel_merged_output runCloseFailEnv rfl
  exact ⟨h.2.1, h.2.2.1⟩

/-- C7: counterexample — the claim says a second Close after a successful
Close is a no-op returning no error; goph's Close (client.go lines
161-163) delegates to the underlying transport connection's Close, which
reports the already-closed error on the second call. -/
theorem close_twice_returns_error :
    (Close { closed := false }).1 = none
    ∧ (Close (Close { closed := false }).2).1 = some Err.errClosed := by decide

/-- C7 (amended): Close is a pure delegation to the transport: the first
Close on an open connection succeeds and closes it; a second Close
returns the transport's already-closed error (net.ErrClosed) rather than
nil — it is safe to call again but not an error-free no-op — and leaves
the connection closed. -/
theorem close_delegates_to_transport (c : Conn) (h : c.closed = false) :
    (Close c).1 = none ∧ (Close c).2.closed = true
    ∧ (Close (Close c).2).1 = some Err.errClosed
    ∧ (Close (Close c).2).2.closed = true := by
  simp [Close, sshConnClose, h]

theorem close_delegates_to_transport_witness :
    (Close (Close { closed := false }).2).2.closed = true := by
  have h := close_delegates_to_transport { closed := false } rfl
  exact h.2.2.2

/-- C8: in every execution of downloadFile, whenever the local
destination file is created the local parent directories were created
(MkdirAll) at an earlier point; whenever the stream-copy completes the
create preceded it; and whenever the written content is synced the Sync
precedes the release (close) of the local file handle. -/
theorem downloadFile_parent_dirs_then_sync_before_release
    (env : DownloadEnv) (remote : Fs) (rp lp : Path) (lfs : Fs) :
    (Event.localCreate lp ∈ (downloadFile env remote rp lp lfs).2.2 →
      precedes (Event.localMkdirAll lp.dropLast) (Event.localCreate lp)
        (downloadFile env remote rp lp lfs).2.2)
    ∧ (Event.copy lp ∈ (downloadFile env remote rp lp lfs).2.2 →
      precedes (Event.localCreate lp) (Event.copy lp) (downloadFile env remote rp lp lfs).2.2)
    ∧ (Event.sync lp ∈ (downloadFile env remote rp lp lfs).2.2 →
      precedes (Event.sync lp) (Event.closeFile lp) (downloadFile env remote rp lp lfs).2.2) := by
  unfold downloadFile
  split
  · split_ifs with h1 h2 h3 h4 h5
    · exact ⟨fun h => by simp at h, fun h => by simp at h, fun h => by simp at h⟩
    · exact ⟨fun h => by simp at h, fun h => by simp at h, fun h => by simp at h⟩
    · exact ⟨fun h => by simp at h, fun h => by simp at h, fun h => by simp at h⟩
    · exact ⟨fun _ => ⟨1, 2, by omega, rfl, rfl⟩, fun h => by simp at h, fun h => by simp at h⟩
    · exact ⟨fun _ => ⟨1, 2, by omega, rfl, rfl⟩, fun _ => ⟨2, 3, by omega, rfl, rfl⟩,
        fun h => by simp at h⟩
    · exact ⟨fun _ => ⟨1, 2, by omega, rfl, rfl⟩, fun _ => ⟨2, 3, by omega, rfl, rfl⟩,
        fun _ => ⟨4, 5, by omega, rfl, rfl⟩⟩
  · exact ⟨fun h => by simp at h, fun h => by simp at h, fun h => by simp at h⟩

theorem downloadFile_parent_dirs_then_sync_before_release_witness :
    precedes (Event.localMkdirAll ["d"]) (Event.localCreate ["d", "f"])
      (downloadFile okDownEnv (Fs.insert emptyFs ["r"] (FNode.file [9])) ["r"] ["d", "f"]
        emptyFs).2.2
    ∧ precedes (Event.sync ["d", "f"]) (Event.closeFile ["d", "f"])
      (downloadFile okDownEnv (Fs.insert emptyFs ["r"] (FNode.file [9])) ["r"] ["d", "f"]
        emptyFs).2.2 := by
  have h := downloadFile_parent_dirs_then_sync_before_release okDownEnv
      (Fs.insert emptyFs ["r"] (FNode.file [9])) ["r"] ["d", "f"] emptyFs
  exact ⟨h.1 (by decide), h.2.2 (by decide)⟩

/-- C9: a host-identity verification policy is always explicit, never
inferred: every configuration New successfully builds carries the
trust-store-backed known-hosts callback, NewUnknown's configuration
carries the explicit insecure accept-any callback, and dialing a
configuration with no callback set is rejected as a configuration error
(never a silent accept-any default). -/
theorem host_key_policy_always_explicit (khOk dialFails : Bool) (u a : String)
    (cfg : SshConfig) :
    (∀ c, New khOk u a = some c → c.callback = some HostPolicy.knownHostsCheck)
    ∧ (NewUnknown u a).callback = some HostPolicy.insecureAcceptAny
    ∧ (cfg.callback = none → Dial dialFails cfg = (some Err.hostKeyPolicyMissing, none)) := by
  refine ⟨?_, rfl, ?_⟩
  · intro c hc
    cases khOk with
    | false => simp [New, DefaultKnownHosts] at hc
    | true =>
      simp only [New, DefaultKnownHosts, if_true, Option.some.injEq] at hc
      rw [← hc]
  · intro h
    simp [Dial, h]

theorem host_key_policy_always_explicit_witness :
    (NewUnknown ("u") ("h")).callback = some HostPolicy.insecureAcceptAny
    ∧ Dial false { user := "u", addr := "h", port := 22, callback := none }
        = (some Err.hostKeyPolicyMissing, none)
    ∧ ({ user := "u", addr := "h", port := 22,
          callback := some HostPolicy.knownHostsCheck } : SshConfig).callback
        = some HostPolicy.knownHostsCheck := by
  have h := host_key_policy_always_explicit true false ("u") ("h")
      { user := "u", addr := "h", port := 22, callback := none }
  exact ⟨h.2.1, h.2.2 rfl, h.1 _ rfl⟩

/-- C10: on a source path whose local stat reports a regular file with
content `c` and with no faults, the directory-aware Upload and the legacy
UploadV1 are equivalent: both succeed, both leave the identical
destination filesystem (the destination file created with the source's
bytes), each opens exactly one sftp sub-channel and closes it, and each
closes the source and destination file handles before returning. -/
theorem upload_refines_uploadV1_on_files (env : UploadEnv) (h : env.noFaults)
    (c : List Nat) (sp dp : Path) (remote : Fs) :
    (Upload env (some (LocalSource.file c)) sp dp remote).1 = none
    ∧ (UploadV1 env (some c) sp dp remote).1 = none
    ∧ (Upload env (some (LocalSource.file c)) sp dp remote).2.1
        = (UploadV1 env (some c) sp dp remote).2.1
    ∧ (Upload env (some (LocalSource.file c)) sp dp remote).2.1
        = Fs.insert remote dp (FNode.file c)
    ∧ sftpOpens (Upload env (some (LocalSource.file c)) sp dp remote).2.2 = 1
    ∧ sftpCloses (Upload env (some (LocalSource.file c)) sp dp remote).2.2 = 1
    ∧ sftpOpens (UploadV1 env (some c) sp dp remote).2.2 = 1
    ∧ sftpCloses (UploadV1 env (some c) sp dp remote).2.2 = 1
    ∧ Event.closeFile sp ∈ (Upload env (some (LocalSource.file c)) sp dp remote).2.2
    ∧ Event.closeFile dp ∈ (Upload env (some (LocalSource.file c)) sp dp remote).2.2
    ∧ Event.closeFile sp ∈ (UploadV1 env (some c) sp dp remote).2.2
    ∧ Event.closeFile dp ∈ (UploadV1 env (some c) sp dp remote).2.2 := by
  obtain ⟨h1, h2, h3, h4, h5, h6⟩ := h
  have e1 : Upload env (some (LocalSource.file c)) sp dp remote
      = (none, Fs.insert remote dp (FNode.file c),
        [.sftpOpen, .localOpen sp, .remoteCreate dp, .copy dp, .closeFile dp, .closeFile sp,
          .sftpClose]) := by
    simp [Upload, uploadFile, h1, h3, h4, h5]
  have e2 : UploadV1 env (some c) sp dp remote
      = (none, Fs.insert remote dp (FNode.file c),
        [.localOpen sp, .sftpOpen, .remoteCreate dp, .copy dp, .closeFile dp, .sftpClose,
          .closeFile sp]) := by
    simp [UploadV1, h1, h3, h4, h5]
  rw [e1, e2]
  refine ⟨rfl, rfl, rfl, rfl, rfl, rfl, rfl, rfl, ?_, ?_, ?_, ?_⟩ <;> simp

theorem upload_refines_uploadV1_on_files_witness :
    (Upload okUpEnv (some (LocalSource.file [5])) ["a"] ["b"] emptyFs).2.1
      = (UploadV1 okUpEnv (some [5]) ["a"] ["b"] emptyFs).2.1
    ∧ sftpOpens (UploadV1 okUpEnv (some [5]) ["a"] ["b"] emptyFs).2.2 = 1 := by
  have hok : okUpEnv.noFaults :=
    ⟨rfl, fun _ => rfl, fun _ => rfl, fun _ => rfl, fun _ => rfl, fun _ => rfl⟩
  have h := upload_refines_uploadV1_on_files okUpEnv hok [5] ["a"] ["b"] emptyFs
  exact ⟨h.2.2.1, h.2.2.2.2.2.2.1⟩

end Goph
